import Mathlib

/-!
Verification of `scripts/build_deck.py`: a converter from word-processor-exported
Markdown documents to a flashcard (Anki) deck file.

The Python source is shallowly embedded: strings become `String`/`List Char`,
bytes become `List Nat` (each `< 256`), the filesystem becomes an association
list from path to contents, fallible operations return `Except PyErr`, and the
specific regular expressions of the source are embedded as executable matching
functions implementing exactly the semantics of the Python `re` patterns used
(leftmost match, lazy/greedy quantifier resolution for these particular
patterns, `re.DOTALL` where the source sets it).
-/

/-- Python exception outcomes that the embedded code can raise. -/
inductive PyErr
  /-- `TypeError`: a function called with the wrong number of arguments. -/
  | typeError
  /-- `binascii.Error` from `base64.b64decode` on malformed input. -/
  | base64Error
  /-- `FileNotFoundError` from `open` on a missing file. -/
  | fileNotFoundError
  /-- `IndexError` from indexing past the end of a list. -/
  | indexError
  /-- `KeyError` from a missing dict key. -/
  | keyError
deriving DecidableEq, Repr

deriving instance DecidableEq for Except

/-- The whitespace characters stripped by Python's `str.strip()` (ASCII range). -/
def isPyWhitespace (c : Char) : Bool :=
  c = ' ' || c = '\t' || c = '\n' || c = '\x0d' || c = '\x0b' || c = '\x0c'

/-- Python `str.strip()`: remove leading and trailing whitespace. -/
def pyStrip (l : List Char) : List Char :=
  ((l.dropWhile isPyWhitespace).reverse.dropWhile isPyWhitespace).reverse

/-- Python `str.replace(pat, repl)`: replace all non-overlapping occurrences,
scanning left to right.  (Never used with an empty pattern in the source.)
The fuel argument only bounds the recursion structurally; every step consumes
at least one character, so the `length + 1` supplied by `replaceSub` is never
exhausted. -/
def replaceSubAux (pat repl : List Char) : Nat → List Char → List Char
  | 0, s => s
  | _ + 1, [] => []
  | fuel + 1, c :: rest =>
    if pat.isEmpty = false ∧ pat.isPrefixOf (c :: rest) = true then
      repl ++ replaceSubAux pat repl fuel (rest.drop (pat.length - 1))
    else c :: replaceSubAux pat repl fuel rest

/-- Python `str.replace(pat, repl)` on character lists. -/
def replaceSub (pat repl : List Char) (s : List Char) : List Char :=
  replaceSubAux pat repl (s.length + 1) s

/-- `str.replace` on `String`s. -/
def pyReplace (pat repl s : String) : String :=
  String.mk (replaceSub pat.data repl.data s.data)

/-- First occurrence of the (nonempty) literal `sep` in `s`:
`findSub sep s = some (pre, post)` iff `s = pre ++ sep ++ post` with the
occurrence leftmost.  This is the building block for the lazy `(.*?)lit`
pieces of the source's regular expressions. -/
def findSub (sep : List Char) : List Char → Option (List Char × List Char)
  | [] => none
  | c :: rest =>
    if sep.isPrefixOf (c :: rest) then some ([], (c :: rest).drop sep.length)
    else (findSub sep rest).map (fun pr => (c :: pr.1, pr.2))

/-- Python regex `\w` on the ASCII range (used for the `(\w+)` extension group). -/
def isWordChar (c : Char) : Bool :=
  c.isAlpha || c.isDigit || c = '_'

/-- `os.path.basename` (POSIX): the part after the last `/`. -/
def pyBasename (p : String) : String :=
  String.mk (p.data.reverse.takeWhile (fun c => c ≠ '/')).reverse

/-- `os.path.dirname` (POSIX): everything up to the last `/`, with trailing
slashes stripped unless the result is all slashes. -/
def pyDirname (p : String) : String :=
  let s := p.data
  let k := (s.reverse.takeWhile (fun c => c ≠ '/')).length
  if k = s.length then ""
  else
    let head := s.take (s.length - k)
    if head.all (fun c => c = '/') then String.mk head
    else String.mk (head.reverse.dropWhile (fun c => c = '/')).reverse

/-- `os.path.join` (POSIX) of two components. -/
def pyJoin2 (a b : String) : String :=
  if b.data.head? = some '/' then b
  else if a = "" ∨ a.data.getLast? = some '/' then a ++ b
  else a ++ "/" ++ b

/-- `get_path_with_two_levels_of_parents` from the source: rebuild a path from
the grandparent directory name, parent directory name and basename. -/
def get_path_with_two_levels_of_parents (file_path : String) : String :=
  let parent_dir := pyDirname file_path
  let grandparent_dir := pyDirname parent_dir
  pyJoin2 (pyJoin2 (pyBasename grandparent_dir) (pyBasename parent_dir))
    (pyBasename file_path)

/-- Python `str.split('-')`. -/
def pySplitDash : List Char → List (List Char)
  | [] => [[]]
  | c :: rest =>
    let r := pySplitDash rest
    if c = '-' then [] :: r
    else
      match r with
      | [] => [[c]]
      | h :: t => (c :: h) :: t

/-- `escape_quotes` from the source: double every double quote. -/
def escape_quotes (text : String) : String :=
  pyReplace "\"" "\"\"" text

/-- `unescape_brackets` from the source: `\[` → `[`, then `\]` → `]`. -/
def unescape_brackets (text : String) : String :=
  pyReplace "\\]" "]" (pyReplace "\\[" "[" text)

/-- The per-document category of `parse_markdown_with_re` (source line 57-58):
basename of the input file, `.md` occurrences removed, second `-`-separated
segment, stripped, spaces replaced by underscores.  `none` models the
`IndexError` raised when there is no second segment. -/
def categoryOf (input_file : String) : Option String :=
  let base := pyReplace ".md" "" (pyBasename input_file)
  match (pySplitDash base.data).get? 1 with
  | none => none
  | some seg =>
    some (String.mk ((pyStrip seg).map (fun c => if c = ' ' then '_' else c)))

/-!
### The image-tag rewriting pattern

`re.sub(r'!\[\]\((.*?)\){.*?}', repl, text, flags=re.DOTALL)` is used twice in
the source (`convert_markdown_image_tag` and `handle_image_reference`), with
different replacement functions.  A match attempt at a position needs the
literal `![](`, then the lazy group up to the first `){`, then anything up to
the first `}`; every quantified piece is a plain "first occurrence of a
literal" search, and a failed search also fails for every later backtracking
choice (the search space only shrinks), so first-occurrence scanning without
backtracking is exactly Python's behavior for this pattern.  `re.sub` resumes
scanning right after each replacement.  The fuel argument only bounds the
recursion; `imgSub` supplies `length + 1`, which is never exhausted since every
step consumes at least one character. -/
def imgSubAux (repl : List Char → List Char) : Nat → List Char → List Char
  | 0, s => s
  | _ + 1, [] => []
  | fuel + 1, c :: rest =>
    if "![](".data.isPrefixOf (c :: rest) then
      match findSub [')', '{'] ((c :: rest).drop 4) with
      | some (g1, post) =>
        match findSub ['\x7d'] post with
        | some (_, post2) =>
          "<img src=\"".data ++ repl g1 ++ "\">".data ++ imgSubAux repl fuel post2
        | none => c :: imgSubAux repl fuel rest
      | none => c :: imgSubAux repl fuel rest
    else c :: imgSubAux repl fuel rest

/-- `re.sub` for the image pattern, with replacement `<img src="repl g1">`. -/
def imgSub (repl : List Char → List Char) (s : List Char) : List Char :=
  imgSubAux repl (s.length + 1) s

/-- `convert_markdown_image_tag` from the source.  Its docstring claims it
converts tags like `![][image_name]`, but its pattern only matches
`![](path){attrs}`, and it takes a single parameter (its caller in
`parse_markdown_old_school` passes two — see `parse_markdown_old_school`). -/
def convert_markdown_image_tag (text : String) : String :=
  String.mk (imgSub id text.data)

/-- `handle_image_reference` from the source: same pattern, but the rewritten
`src` is rebuilt from the last two parent directory components plus basename. -/
def handle_image_reference (body : String) : String :=
  String.mk
    (imgSub (fun g1 => (get_path_with_two_levels_of_parents (String.mk g1)).data)
      body.data)

/-!
### The question pattern of `parse_markdown_with_re`

```
\[(.+?)\]\{\.comment-start.*?\}(.*?)\[\]\{\.comment-end.*?\}(.*?)
    (?=\[.+\]\{\.comment-start.*?\}|\Z)      (re.DOTALL)
```

A match at a position needs `[`, at least one character of group 1, the
literal `]{.comment-start`, anything up to the first `}`, group 2 up to the
first `[]{.comment-end`, anything up to the first `}`, then the lazy group 3
grows until the lookahead holds (a following comment-start marker, or end of
text — so it always eventually holds).  Again every quantifier resolves to a
first-occurrence search whose failure persists under backtracking, so
first-occurrence scanning is faithful; `findall` restarts after each match. -/
def csMark : List Char := "]\x7b.comment-start".data

def ceMark : List Char := "[]\x7b.comment-end".data

/-- The lookahead `\[.+\]\{\.comment-start.*?\}`: can a comment-start marker
(with nonempty bracketed text and a closing `}`) match at this position? -/
def lookaheadOk : List Char → Bool
  | [] => true
  | '[' :: _ :: u =>
    match findSub csMark u with
    | some (_, v) => (findSub ['\x7d'] v).isSome
    | none => false
  | _ => false

/-- Split off the shortest group-3 prefix after which the lookahead holds
(end of text always qualifies). -/
def takeUntilLookahead : List Char → List Char × List Char
  | [] => ([], [])
  | c :: rest =>
    if lookaheadOk (c :: rest) then ([], c :: rest)
    else
      let p := takeUntilLookahead rest
      (c :: p.1, p.2)

/-- One match attempt of the question pattern at the start of `s`; on success,
the three groups and the remainder of the text after the match. -/
def questionTryMatch (s : List Char) :
    Option ((List Char × List Char × List Char) × List Char) :=
  match s with
  | '[' :: c :: rest =>
    match findSub csMark rest with
    | none => none
    | some (pre, post) =>
      match findSub ['\x7d'] post with
      | none => none
      | some (_, post2) =>
        match findSub ceMark post2 with
        | none => none
        | some (g2, post3) =>
          match findSub ['\x7d'] post3 with
          | none => none
          | some (_, post4) =>
            let p := takeUntilLookahead post4
            some ((c :: pre, g2, p.1), p.2)
  | _ => none

/-- `re.findall` for the question pattern: scan start positions left to right,
emit each match's groups, resume after the match.  Fuel `length + 1` is never
exhausted (every step strictly shortens the text). -/
def questionFindallAux : Nat → List Char → List (List Char × List Char × List Char)
  | 0, _ => []
  | _ + 1, [] => []
  | fuel + 1, c :: rest =>
    match questionTryMatch (c :: rest) with
    | some (g, remainder) => g :: questionFindallAux fuel remainder
    | none => questionFindallAux fuel rest

/-- All matches of the source's `question_pattern` in a document text. -/
def question_findall (s : String) : List (String × String × String) :=
  (questionFindallAux (s.data.length + 1) s.data).map
    (fun g => (String.mk g.1, String.mk g.2.1, String.mk g.2.2))

/-!
### The datablock pattern of `parse_markdown_old_school`

`re.match(r"\[(.*?)\]: <data:image\/(\w+);base64,(.*)>", line)`, anchored at
the start of the line.  Group 1 is lazy and may be empty; a candidate split is
accepted only if the anchored continuation (`(\w+);base64,` then `(.*)>`)
succeeds after it, otherwise the lazy group grows past the occurrence — the
scan below tries every occurrence of `]: <data:image/` in order, exactly like
the backtracking engine.  `(\w+)` is greedy and `;` is not a word character,
so it must capture a maximal word-character run; `(.*)` is greedy with no
DOTALL, so group 3 ends at the last `>` of the line. -/
def dbSep : List Char := "]: <data:image/".data

/-- The anchored `(.*)>` tail: everything before the last `>`, if any. -/
def splitLastGT (l : List Char) : Option (List Char) :=
  let rev := l.reverse
  let t := rev.takeWhile (fun c => c ≠ '>')
  if t.length = rev.length then none
  else some ((rev.drop (t.length + 1)).reverse)

/-- The continuation after `]: <data:image/`: extension group, `;base64,`
literal, data group. -/
def dbChainExtract (post : List Char) : Option (List Char × List Char) :=
  let ext := post.takeWhile isWordChar
  if ext.isEmpty then none
  else
    let rest := post.drop ext.length
    if ";base64,".data.isPrefixOf rest then
      match splitLastGT (rest.drop 8) with
      | some data => some (ext, data)
      | none => none
    else none

/-- Scan successive candidate end positions of the lazy group 1
(`acc` holds the group-1 characters seen so far, reversed). -/
def matchDatablockAux (acc : List Char) :
    List Char → Option (List Char × List Char × List Char)
  | [] => none
  | c :: rest =>
    if dbSep.isPrefixOf (c :: rest) then
      match dbChainExtract ((c :: rest).drop dbSep.length) with
      | some (ext, data) => some (acc.reverse, ext, data)
      | none => matchDatablockAux (c :: acc) rest
    else matchDatablockAux (c :: acc) rest

/-- `datablock_regex.match line`: the groups `(name, extension, data)` if the
line is a datablock line. -/
def matchDatablock (line : String) : Option (String × String × String) :=
  match line.data with
  | c :: rest =>
    if c = '[' then
      (matchDatablockAux [] rest).map
        (fun g => (String.mk g.1, String.mk g.2.1, String.mk g.2.2))
    else none
  | [] => none

/-!
### The title-boundary pattern of `parse_markdown_old_school`

`re.match(r'\d+-\\\[ct-.+\\\]', line)`: one or more digits (greedy; a shorter
run would have to put a digit where `-` is required, so maximal-run-then-
literal is faithful), the literal `-\[ct-`, at least one character, then the
literal `\]` anywhere later in the line. -/
def title_match (line : String) : Bool :=
  let s := line.data
  let ds := s.takeWhile Char.isDigit
  !ds.isEmpty && "-\\[ct-".data.isPrefixOf (s.drop ds.length) &&
    (match s.drop (ds.length + 6) with
     | [] => false
     | _ :: r2 => (findSub ['\\', ']'] r2).isSome)

/-!
### Base64 (`base64.b64encode` / `base64.b64decode` from the Python stdlib)

Bytes are `Nat`s below 256.  `pyB64decode` models `b64decode` on well-formed
input: non-alphabet characters are discarded (as `binascii.a2b_base64` does)
and a group structure that is not "zero or more full groups, optionally ending
in one correctly padded group" yields `none` (the `binascii.Error` raised for
incorrect padding). -/
def b64Alphabet : List Char :=
  "ABCDEFGHIJKLMNOPQRSTUVWXYZabcdefghijklmnopqrstuvwxyz0123456789+/".data

/-- The character for a 6-bit value. -/
def b64Char (v : Nat) : Char := b64Alphabet.getD (v % 64) 'A'

/-- The 6-bit value of an alphabet character. -/
def b64Val (c : Char) : Option Nat := b64Alphabet.indexOf? c

def b64encode : List Nat → List Char
  | [] => []
  | [b1] => [b64Char (b1 / 4), b64Char (b1 % 4 * 16), '=', '=']
  | [b1, b2] =>
    [b64Char (b1 / 4), b64Char (b1 % 4 * 16 + b2 / 16), b64Char (b2 % 16 * 4), '=']
  | b1 :: b2 :: b3 :: rest =>
    b64Char (b1 / 4) :: b64Char (b1 % 4 * 16 + b2 / 16) ::
      b64Char (b2 % 16 * 4 + b3 / 64) :: b64Char (b3 % 64) :: b64encode rest

def b64decodeCore : List Char → Option (List Nat)
  | [] => some []
  | c1 :: c2 :: c3 :: c4 :: rest =>
    if c3 = '=' then
      match b64Val c1, b64Val c2 with
      | some v1, some v2 =>
        if c4 = '=' ∧ rest = [] then some [v1 * 4 + v2 / 16] else none
      | _, _ => none
    else if c4 = '=' then
      match b64Val c1, b64Val c2, b64Val c3 with
      | some v1, some v2, some v3 =>
        if rest = [] then some [v1 * 4 + v2 / 16, v2 % 16 * 16 + v3 / 4] else none
      | _, _, _ => none
    else
      match b64Val c1, b64Val c2, b64Val c3, b64Val c4 with
      | some v1, some v2, some v3, some v4 =>
        (b64decodeCore rest).map
          (fun bs => (v1 * 4 + v2 / 16) :: (v2 % 16 * 16 + v3 / 4) :: (v3 % 4 * 64 + v4) :: bs)
      | _, _, _, _ => none
  | _ => none

/-- `base64.b64decode`: discard non-alphabet characters, then decode groups. -/
def pyB64decode (s : List Char) : Option (List Nat) :=
  b64decodeCore (s.filter (fun c => c ∈ b64Alphabet || c = '='))

/-!
### MD5 (`hashlib.md5` from the Python stdlib)

A direct implementation of RFC 1321 over byte lists, with 32-bit words as
`Nat`s kept below `2^32` by explicit `% 2^32` reductions.  Validated below
against the standard test vectors (`md5("") = d41d8cd9…`, `md5("abc") =
90015098…`) and a two-block input. -/

/-- UTF-8 encoding of a string (`str.encode()`), as bytes. -/
def utf8Bytes (s : String) : List Nat :=
  s.data.flatMap (fun c =>
    let n := c.toNat
    if n < 0x80 then [n]
    else if n < 0x800 then [0xc0 + n / 64, 0x80 + n % 64]
    else if n < 0x10000 then [0xe0 + n / 4096, 0x80 + n / 64 % 64, 0x80 + n % 64]
    else [0xf0 + n / 262144, 0x80 + n / 4096 % 64, 0x80 + n / 64 % 64, 0x80 + n % 64])

/-- The MD5 sine-derived round constants `K`. -/
def md5K : List Nat :=
  [3614090360, 3905402710, 606105819, 3250441966,
   4118548399, 1200080426, 2821735955, 4249261313,
   1770035416, 2336552879, 4294925233, 2304563134,
   1804603682, 4254626195, 2792965006, 1236535329,
   4129170786, 3225465664, 643717713, 3921069994,
   3593408605, 38016083, 3634488961, 3889429448,
   568446438, 3275163606, 4107603335, 1163531501,
   2850285829, 4243563512, 1735328473, 2368359562,
   4294588738, 2272392833, 1839030562, 4259657740,
   2763975236, 1272893353, 4139469664, 3200236656,
   681279174, 3936430074, 3572445317, 76029189,
   3654602809, 3873151461, 530742520, 3299628645,
   4096336452, 1126891415, 2878612391, 4237533241,
   1700485571, 2399980690, 4293915773, 2240044497,
   1873313359, 4264355552, 2734768916, 1309151649,
   4149444226, 3174756917, 718787259, 3951481745]

/-- The MD5 per-round left-rotation amounts. -/
def md5S : List Nat :=
  [7, 12, 17, 22, 7, 12, 17, 22, 7, 12, 17, 22, 7, 12, 17, 22,
   5, 9, 14, 20, 5, 9, 14, 20, 5, 9, 14, 20, 5, 9, 14, 20,
   4, 11, 16, 23, 4, 11, 16, 23, 4, 11, 16, 23, 4, 11, 16, 23,
   6, 10, 15, 21, 6, 10, 15, 21, 6, 10, 15, 21, 6, 10, 15, 21]

/-- Bitwise complement on 32-bit words. -/
def not32 (x : Nat) : Nat := Nat.xor x (2 ^ 32 - 1)

/-- Left rotation of a 32-bit word. -/
def rotl32 (x s : Nat) : Nat :=
  Nat.lor (x * 2 ^ s % 2 ^ 32) (x % 2 ^ 32 / 2 ^ (32 - s))

/-- MD5 padding: append `0x80`, zeros to 56 mod 64, then the bit length
little-endian in 8 bytes. -/
def md5Pad (msg : List Nat) : List Nat :=
  let len := msg.length
  let bitLen := len * 8 % 2 ^ 64
  msg ++ 0x80 :: List.replicate ((119 - len % 64) % 64) 0 ++
    [bitLen % 256, bitLen / 2 ^ 8 % 256, bitLen / 2 ^ 16 % 256,
     bitLen / 2 ^ 24 % 256, bitLen / 2 ^ 32 % 256, bitLen / 2 ^ 40 % 256,
     bitLen / 2 ^ 48 % 256, bitLen / 2 ^ 56 % 256]

/-- Split a list into 64-byte chunks (with a structural fuel bound; every step
consumes at least one element, so the `length + 1` supplied by `chunks64` is
never exhausted). -/
def chunks64Aux : Nat → List Nat → List (List Nat)
  | 0, _ => []
  | _ + 1, [] => []
  | fuel + 1, b :: rest => (b :: rest).take 64 :: chunks64Aux fuel ((b :: rest).drop 64)

/-- Split a list into 64-byte chunks. -/
def chunks64 (l : List Nat) : List (List Nat) :=
  chunks64Aux (l.length + 1) l

/-- The 16 little-endian 32-bit words of a 64-byte chunk. -/
def md5Words (chunk : List Nat) : List Nat :=
  (List.range 16).map (fun j =>
    chunk.getD (4 * j) 0 + chunk.getD (4 * j + 1) 0 * 2 ^ 8 +
      chunk.getD (4 * j + 2) 0 * 2 ^ 16 + chunk.getD (4 * j + 3) 0 * 2 ^ 24)

/-- One MD5 compression round (round index `i`, message words `M`). -/
def md5Round (M : List Nat) (st : Nat × Nat × Nat × Nat) (i : Nat) :
    Nat × Nat × Nat × Nat :=
  let a := st.1
  let b := st.2.1
  let c := st.2.2.1
  let d := st.2.2.2
  let f :=
    if i < 16 then Nat.lor (Nat.land b c) (Nat.land (not32 b) d)
    else if i < 32 then Nat.lor (Nat.land d b) (Nat.land (not32 d) c)
    else if i < 48 then Nat.xor (Nat.xor b c) d
    else Nat.xor c (Nat.lor b (not32 d))
  let g :=
    if i < 16 then i
    else if i < 32 then (5 * i + 1) % 16
    else if i < 48 then (3 * i + 5) % 16
    else 7 * i % 16
  let tmp := (a + f + md5K.getD i 0 + M.getD g 0) % 2 ^ 32
  (d, (b + rotl32 tmp (md5S.getD i 0)) % 2 ^ 32, b, c)

/-- MD5 compression of one 64-byte chunk into the running state. -/
def md5Chunk (st : Nat × Nat × Nat × Nat) (chunk : List Nat) :
    Nat × Nat × Nat × Nat :=
  let M := md5Words chunk
  let r := (List.range 64).foldl (md5Round M) st
  ((st.1 + r.1) % 2 ^ 32, (st.2.1 + r.2.1) % 2 ^ 32,
   (st.2.2.1 + r.2.2.1) % 2 ^ 32, (st.2.2.2 + r.2.2.2) % 2 ^ 32)

/-- The four little-endian bytes of a 32-bit word. -/
def leBytes4 (w : Nat) : List Nat :=
  [w % 256, w / 2 ^ 8 % 256, w / 2 ^ 16 % 256, w / 2 ^ 24 % 256]

/-- The 16-byte MD5 digest of a byte list. -/
def md5Digest (msg : List Nat) : List Nat :=
  let st := (chunks64 (md5Pad msg)).foldl md5Chunk
    (0x67452301, 0xefcdab89, 0x98badcfe, 0x10325476)
  leBytes4 st.1 ++ leBytes4 st.2.1 ++ leBytes4 st.2.2.1 ++ leBytes4 st.2.2.2

/-- Lowercase hex digit for a value below 16. -/
def hexDigit (n : Nat) : Char := "0123456789abcdef".data.getD (n % 16) '0'

/-- The two lowercase hex characters of one byte. -/
def byteHex (b : Nat) : List Char := [hexDigit (b % 256 / 16), hexDigit (b % 16)]

/-- `hashlib.md5(s.encode()).hexdigest()`. -/
def md5Hexdigest (s : String) : String :=
  String.mk ((md5Digest (utf8Bytes s)).flatMap byteHex)

/-- `generate_id_from_filename` from the source: basename, `.md` occurrences
removed, UTF-8-encoded, MD5-hashed, first 8 hex characters of the digest. -/
def generate_id_from_filename (filename : String) : String :=
  String.mk ((md5Hexdigest (pyReplace ".md" "" (pyBasename filename))).data.take 8)

/-!
### Records and the two parser variants

Python accumulates records in plain dicts; a field that may be absent from the
dict is an `Option` here, and `isSome` models the `'key' in dict` test.  A
`deepcopy` append is a value append in the pure model. -/

/-- A record of the pattern-based parser (`parse_markdown_with_re`). -/
structure QRe where
  category : Option String
  answer : Option String
  title : Option String
  body : Option String
deriving DecidableEq, Repr

/-- A record of the legacy line scanner (`parse_markdown_old_school`). -/
structure QOld where
  title : Option String
  body : Option (List String)
deriving DecidableEq, Repr

/-- The media directory as written so far: path ↦ bytes (later writes shadow
earlier ones, like the filesystem). -/
abbrev MediaFS := List (String × List Nat)

/-- The loop body of `parse_markdown_with_re` (source lines 71-76): overwrite
the answer/title/body of `current_question` from the match groups and append a
deep copy. -/
def reStep (acc : List QRe × QRe) (m : String × String × String) : List QRe × QRe :=
  let cur : QRe := { acc.2 with
    answer := some (escape_quotes m.1),
    title := some (unescape_brackets m.2.1),
    body := some (escape_quotes m.2.2) }
  (acc.1 ++ [cur], cur)

/-- The whole match loop of `parse_markdown_with_re`, starting from a
`current_question` holding only the category. -/
def reLoop (category : String) (ms : List (String × String × String)) : List QRe :=
  (ms.foldl reStep
    ([], { category := some category, answer := none, title := none, body := none })).1

/-- `parse_markdown_with_re` (source lines 50-78).  `content` is the result of
opening `input_file` (`none` = missing file).  The category is derived (and an
`IndexError` possibly raised) before the file is opened, matching the source
order; media-directory creation has no observable effect here. -/
def parse_markdown_with_re (input_file : String) (content : Option String) :
    Except PyErr (List QRe) :=
  match categoryOf input_file with
  | none => .error .indexError
  | some cat =>
    match content with
    | none => .error .fileNotFoundError
    | some text => .ok (reLoop cat (question_findall (handle_image_reference text)))

/-- `write_markdown_datablocks_to_file` (source lines 24-32): decode the base64
payload and write it to `<media_dir>/<name>-<file_id>.<ext>`. -/
def write_markdown_datablocks_to_file (name ext data file_id media_dir : String)
    (fs : MediaFS) : Except PyErr MediaFS :=
  match pyB64decode data.data with
  | none => .error .base64Error
  | some bytes =>
    .ok ((pyJoin2 media_dir (name ++ "-" ++ file_id ++ "." ++ ext), bytes) :: fs)

/-- The state of the legacy line scanner: finalized records, the in-progress
`current_question`, and the media files written so far. -/
structure OldState where
  questions : List QOld
  current : QOld
  fs : MediaFS
deriving DecidableEq, Repr

/-- One line of the `parse_markdown_old_school` loop (source lines 88-109).
On a non-boundary line while a record is in progress, the source calls
`convert_markdown_image_tag(line, file_id)` — but that function takes a single
parameter, so Python raises `TypeError` before anything else happens; the
embedding returns that error. -/
def oldStep (file_id output_dir : String) (st : OldState) (line : String) :
    Except PyErr OldState :=
  match matchDatablock line with
  | some g =>
    match write_markdown_datablocks_to_file g.1 g.2.1 g.2.2 file_id
        (pyJoin2 output_dir "media") st.fs with
    | .error e => .error e
    | .ok fs' => .ok { st with fs := fs' }
  | none =>
    if title_match line then
      .ok { questions :=
              if st.current.title.isSome then st.questions ++ [st.current]
              else st.questions,
            current := { title := some (String.mk (pyStrip (unescape_brackets line).data)),
                         body := some [] },
            fs := st.fs }
    else
      if st.current.title.isSome then .error .typeError
      else .ok st

/-- The line loop of `parse_markdown_old_school`. -/
def oldRun (file_id output_dir : String) : List String → OldState → Except PyErr OldState
  | [], st => .ok st
  | l :: ls, st =>
    match oldStep file_id output_dir st l with
    | .error e => .error e
    | .ok st' => oldRun file_id output_dir ls st'

/-- `parse_markdown_old_school` (source lines 80-111).  `lines` are the lines
of the input file (without trailing newlines, which none of the per-line
operations can observe: the patterns never reach across a final newline and
stripping removes it). -/
def parse_markdown_old_school (lines : List String) (file_id output_dir : String)
    (fs : MediaFS) : Except PyErr (List QOld × MediaFS) :=
  (oldRun file_id output_dir lines ⟨[], ⟨none, none⟩, fs⟩).map
    (fun st => (st.questions, st.fs))

/-!
### The record assembler and the top-level loop -/

/-- One output line of `generate_anki_file` (source line 176-181); a missing
dict key raises `KeyError`. -/
def ankiRecordLine (q : QRe) : Except PyErr String :=
  match q.category with
  | none => .error .keyError
  | some cat =>
    match q.answer with
    | none => .error .keyError
    | some ans =>
      match q.title with
      | none => .error .keyError
      | some t =>
        match q.body with
        | none => .error .keyError
        | some b =>
          .ok ("\"" ++ t ++ "<br>" ++ b ++ "\";\"" ++ ans ++ "\";\"" ++ cat ++ "\"\n\n")

/-- The record lines of `generate_anki_file`, concatenated. -/
def ankiLines : List QRe → Except PyErr String
  | [] => .ok ""
  | q :: rest =>
    match ankiRecordLine q with
    | .error e => .error e
    | .ok l =>
      match ankiLines rest with
      | .error e => .error e
      | .ok r => .ok (l ++ r)

/-- `generate_anki_file` (source lines 173-181): the full contents written to
the output file, which is opened with mode `'w'` (truncating any existing
file): header line, then one three-field line plus a blank separator line per
record. -/
def generate_anki_file (questions : List QRe) : Except PyErr String :=
  match ankiLines questions with
  | .error e => .error e
  | .ok body => .ok ("question;answer;tag\n" ++ body)

/-- An entry of the input directory, with its externally determined content:
for a `.md` file the text it holds, for a `.docx` file the Markdown the
external converter would produce (`none` = the `pandoc` subprocess fails). -/
inductive SrcFile
  | md (name content : String)
  | docx (name : String) (pandoc : Option String)
deriving DecidableEq, Repr

/-- Markdown files on disk: path ↦ text. -/
abbrev TextFS := List (String × String)

/-- `convert_docx_to_markdown` (source lines 151-171): run the converter; on
`CalledProcessError` the exception is caught and printed and the function
still returns the intended output path (the file was never written). -/
def convert_docx_to_markdown (pandoc : Option String) (docx_file output_dir : String)
    (fs : TextFS) : String × TextFS :=
  let md_filename :=
    pyJoin2 (pyJoin2 output_dir "markdown") (pyReplace ".docx" ".md" (pyBasename docx_file))
  match pandoc with
  | some mdText => (md_filename, (md_filename, mdText) :: fs)
  | none => (md_filename, fs)

/-- The `__main__` per-file loop (source lines 201-213) with
`parse_markdown = parse_markdown_with_re`: for a `.md` entry parse its text;
for a `.docx` entry convert, then parse the converted file read back from
disk.  An uncaught exception aborts the whole loop. -/
def process_all : List SrcFile → String → TextFS → Except PyErr (List QRe × TextFS)
  | [], _, fs => .ok ([], fs)
  | SrcFile.md name content :: rest, output_dir, fs =>
    match parse_markdown_with_re name (some content) with
    | .error e => .error e
    | .ok qs =>
      match process_all rest output_dir fs with
      | .error e => .error e
      | .ok (qs', fs') => .ok (qs ++ qs', fs')
  | SrcFile.docx name pandoc :: rest, output_dir, fs =>
    let c := convert_docx_to_markdown pandoc name output_dir fs
    match parse_markdown_with_re c.1 (c.2.lookup c.1) with
    | .error e => .error e
    | .ok qs =>
      match process_all rest output_dir c.2 with
      | .error e => .error e
      | .ok (qs', fs') => .ok (qs ++ qs', fs')

/-- `1` when a record is in progress (`'title' in current_question`). -/
def titleFlag (st : OldState) : Nat := if st.current.title.isSome then 1 else 0

/-- The fs-independent part of the scanner state. -/
def projQC (st : OldState) : List QOld × QOld := (st.questions, st.current)

/-- The record that `parse_markdown_with_re` builds from one match. -/
def reRecord (cat : String) (m : String × String × String) : QRe :=
  { category := some cat, answer := some (escape_quotes m.1),
    title := some (unescape_brackets m.2.1), body := some (escape_quotes m.2.2) }

/-- One serialized output line of the assembler, as a function of the record's
fields. -/
def ankiFieldLine (q : QRe) : String :=
  "\"" ++ q.title.getD "" ++ "<br>" ++ q.body.getD "" ++ "\";\"" ++ q.answer.getD ""
    ++ "\";\"" ++ q.category.getD "" ++ "\"\n\n"

/-!
## Supporting lemmas -/

theorem md5Digest_length (msg : List Nat) : (md5Digest msg).length = 16 := by
  simp [md5Digest, leBytes4]

theorem flatMap_byteHex_length (l : List Nat) :
    (l.flatMap byteHex).length = 2 * l.length := by
  induction l with
  | nil => simp
  | cons b t ih => simp [byteHex] at ih ⊢; omega

theorem md5Hexdigest_length (s : String) : (md5Hexdigest s).length = 32 := by
  show ((md5Digest (utf8Bytes s)).flatMap byteHex).length = 32
  rw [flatMap_byteHex_length, md5Digest_length]

theorem hexDigit_mem (n : Nat) : hexDigit n ∈ "0123456789abcdef".data := by
  have h : n % 16 < 16 := Nat.mod_lt _ (by norm_num)
  have key : ∀ m : Fin 16,
      "0123456789abcdef".data.getD m.val '0' ∈ "0123456789abcdef".data := by decide
  exact key ⟨n % 16, h⟩

theorem byteHex_mem (b : Nat) : ∀ c ∈ byteHex b, c ∈ "0123456789abcdef".data := by
  intro c hc
  simp only [byteHex, List.mem_cons, List.not_mem_nil, or_false] at hc
  rcases hc with h | h <;> subst h <;> exact hexDigit_mem _

set_option maxRecDepth 100000 in
/-- MD5 implementation check against the RFC 1321 test vector for `""`. -/
theorem md5_test_vector_empty : md5Hexdigest "" = "d41d8cd98f00b204e9800998ecf8427e" := by
  decide

set_option maxRecDepth 100000 in
/-- MD5 implementation check against the RFC 1321 test vector for `"abc"`. -/
theorem md5_test_vector_abc : md5Hexdigest "abc" = "900150983cd24fb0d6963f7d28e17f72" := by
  decide

/-!
## Claim C9 — the Identifier Deriver -/

/-- **C9.** For every filename string, `generate_id_from_filename` returns an
8-character string of lowercase hexadecimal characters, equal to the first 8
hex characters of the MD5 digest of the filename's basename with `.md`
removed; it is deterministic and total (a Lean function — defined for every
string input). -/
theorem C9_identifier_deriver (s : String) :
    generate_id_from_filename s
      = String.mk ((md5Hexdigest (pyReplace ".md" "" (pyBasename s))).data.take 8)
    ∧ (generate_id_from_filename s).length = 8
    ∧ (∀ c ∈ (generate_id_from_filename s).data, c ∈ "0123456789abcdef".data)
    ∧ generate_id_from_filename s = generate_id_from_filename s := by
  refine ⟨rfl, ?_, ?_, rfl⟩
  · show ((md5Hexdigest (pyReplace ".md" "" (pyBasename s))).data.take 8).length = 8
    have h := md5Hexdigest_length (pyReplace ".md" "" (pyBasename s))
    simp only [String.length] at h
    simp [List.length_take, h]
  · intro c hc
    have hc' : c ∈ (md5Hexdigest (pyReplace ".md" "" (pyBasename s))).data :=
      List.mem_of_mem_take hc
    have : (md5Hexdigest (pyReplace ".md" "" (pyBasename s))).data
        = (md5Digest (utf8Bytes (pyReplace ".md" "" (pyBasename s)))).flatMap byteHex := rfl
    rw [this] at hc'
    obtain ⟨b, _, hb⟩ := List.mem_flatMap.mp hc'
    exact byteHex_mem b c hb

/-!
## Base64 lemmas and the decode-encode round trip -/

theorem b64Char_mem (v : Nat) : b64Char v ∈ b64Alphabet := by
  have h : v % 64 < 64 := Nat.mod_lt _ (by norm_num)
  have key : ∀ m : Fin 64, b64Alphabet.getD m.val 'A' ∈ b64Alphabet := by decide
  exact key ⟨v % 64, h⟩

theorem b64Char_ne_pad (v : Nat) : b64Char v ≠ '=' := by
  have h : v % 64 < 64 := Nat.mod_lt _ (by norm_num)
  have key : ∀ m : Fin 64, b64Alphabet.getD m.val 'A' ≠ '=' := by decide
  exact key ⟨v % 64, h⟩

theorem b64Val_b64Char (v : Nat) (h : v < 64) : b64Val (b64Char v) = some v := by
  have key : ∀ m : Fin 64, b64Val (b64Char m.val) = some m.val := by decide
  exact key ⟨v, h⟩

theorem b64encode_chars (bs : List Nat) :
    ∀ c ∈ b64encode bs, c ∈ b64Alphabet ∨ c = '=' := by
  induction bs using b64encode.induct with
  | case1 =>
    intro c hc
    simp only [b64encode, List.not_mem_nil] at hc
  | case2 b1 =>
    intro c hc
    simp only [b64encode, List.mem_cons, List.not_mem_nil, or_false] at hc
    rcases hc with rfl | rfl | rfl | rfl
    · exact Or.inl (b64Char_mem _)
    · exact Or.inl (b64Char_mem _)
    · exact Or.inr rfl
    · exact Or.inr rfl
  | case3 b1 b2 =>
    intro c hc
    simp only [b64encode, List.mem_cons, List.not_mem_nil, or_false] at hc
    rcases hc with rfl | rfl | rfl | rfl
    · exact Or.inl (b64Char_mem _)
    · exact Or.inl (b64Char_mem _)
    · exact Or.inl (b64Char_mem _)
    · exact Or.inr rfl
  | case4 b1 b2 b3 rest ih =>
    intro c hc
    simp only [b64encode, List.mem_cons] at hc
    rcases hc with rfl | rfl | rfl | rfl | hc
    · exact Or.inl (b64Char_mem _)
    · exact Or.inl (b64Char_mem _)
    · exact Or.inl (b64Char_mem _)
    · exact Or.inl (b64Char_mem _)
    · exact ih c hc

theorem b64encode_filter (bs : List Nat) :
    (b64encode bs).filter (fun c => c ∈ b64Alphabet || c = '=') = b64encode bs := by
  rw [List.filter_eq_self]
  intro c hc
  rcases b64encode_chars bs c hc with h | h <;> simp [h]

theorem b64encode_ne_gt (bs : List Nat) : ∀ c ∈ b64encode bs, c ≠ '>' := by
  intro c hc
  rcases b64encode_chars bs c hc with h | h
  · have key : ∀ x ∈ b64Alphabet, x ≠ '>' := by decide
    exact key c h
  · subst h; decide

theorem b64decodeCore_encode (bs : List Nat) (h : ∀ b ∈ bs, b < 256) :
    b64decodeCore (b64encode bs) = some bs := by
  induction bs using b64encode.induct with
  | case1 => rfl
  | case2 b1 =>
    have hb1 : b1 < 256 := h b1 (by simp)
    show b64decodeCore
      (b64Char (b1 / 4) :: b64Char (b1 % 4 * 16) :: '=' :: '=' :: []) = some [b1]
    simp only [b64decodeCore, and_self, if_true]
    rw [b64Val_b64Char _ (by omega), b64Val_b64Char _ (by omega)]
    dsimp only
    simp only [Option.some.injEq, List.cons.injEq, and_true]
    omega
  | case3 b1 b2 =>
    have hb1 : b1 < 256 := h b1 (by simp)
    have hb2 : b2 < 256 := h b2 (by simp)
    show b64decodeCore (b64Char (b1 / 4) :: b64Char (b1 % 4 * 16 + b2 / 16) ::
      b64Char (b2 % 16 * 4) :: '=' :: []) = some [b1, b2]
    simp only [b64decodeCore, and_self, if_true]
    rw [if_neg (b64Char_ne_pad _), b64Val_b64Char _ (by omega),
      b64Val_b64Char _ (by omega), b64Val_b64Char _ (by omega)]
    dsimp only
    simp only [Option.some.injEq, List.cons.injEq, and_true]
    exact ⟨by omega, by omega⟩
  | case4 b1 b2 b3 rest ih =>
    have hb1 : b1 < 256 := h b1 (by simp)
    have hb2 : b2 < 256 := h b2 (by simp)
    have hb3 : b3 < 256 := h b3 (by simp)
    have hrest : ∀ b ∈ rest, b < 256 := fun b hb => h b (by simp [hb])
    show b64decodeCore (b64Char (b1 / 4) :: b64Char (b1 % 4 * 16 + b2 / 16) ::
      b64Char (b2 % 16 * 4 + b3 / 64) :: b64Char (b3 % 64) :: b64encode rest)
      = some (b1 :: b2 :: b3 :: rest)
    simp only [b64decodeCore]
    rw [if_neg (b64Char_ne_pad _), if_neg (b64Char_ne_pad _),
      b64Val_b64Char _ (by omega), b64Val_b64Char _ (by omega),
      b64Val_b64Char _ (by omega), b64Val_b64Char _ (by omega)]
    dsimp only
    rw [ih hrest]
    simp only [Option.map_some', Option.some.injEq, List.cons.injEq, and_true]
    exact ⟨by omega, by omega, by omega⟩

/-- The decode-encode round trip for the stdlib base64 model. -/
theorem pyB64decode_encode (bs : List Nat) (h : ∀ b ∈ bs, b < 256) :
    pyB64decode (b64encode bs) = some bs := by
  rw [pyB64decode, b64encode_filter, b64decodeCore_encode bs h]

/-!
## Lemmas about the datablock matcher on constructed lines -/

theorem isPrefixOf_self_append (l t : List Char) : l.isPrefixOf (l ++ t) = true := by
  induction l with
  | nil => simp [List.isPrefixOf]
  | cons c rest ih => simp [List.isPrefixOf, ih]

theorem takeWhile_all_append (p : Char → Bool) (l1 t : List Char) (c0 : Char)
    (h1 : ∀ c ∈ l1, p c = true) (h0 : p c0 = false) :
    (l1 ++ c0 :: t).takeWhile p = l1 := by
  induction l1 with
  | nil => simp [List.takeWhile, h0]
  | cons c rest ih =>
    have hc : p c = true := h1 c (by simp)
    simp only [List.cons_append, List.takeWhile_cons, hc, if_true]
    rw [ih (fun x hx => h1 x (by simp [hx]))]

theorem splitLastGT_construct (data : List Char) :
    splitLastGT (data ++ ['>']) = some data := by
  have hrev : (data ++ ['>']).reverse = '>' :: data.reverse := by simp
  show (if ((data ++ ['>']).reverse.takeWhile (fun c => c ≠ '>')).length
        = (data ++ ['>']).reverse.length then none
      else some (((data ++ ['>']).reverse.drop
        (((data ++ ['>']).reverse.takeWhile (fun c => c ≠ '>')).length + 1)).reverse))
      = some data
  rw [hrev]
  rw [show (('>' :: data.reverse).takeWhile (fun c => c ≠ '>')) = [] by
    simp [List.takeWhile_cons]]
  simp

theorem dbChainExtract_construct (ext data : List Char)
    (he : ext ≠ []) (hw : ∀ c ∈ ext, isWordChar c = true) :
    dbChainExtract (ext ++ ";base64,".data ++ data ++ ['>']) = some (ext, data) := by
  have harr : ext ++ ";base64,".data ++ data ++ ['>']
      = ext ++ ';' :: ("base64,".data ++ data ++ ['>']) := by
    simp [String.data_append]
  have htw : (ext ++ ';' :: ("base64,".data ++ data ++ ['>'])).takeWhile isWordChar
      = ext := takeWhile_all_append _ _ _ _ hw (by decide)
  rw [dbChainExtract, harr, htw]
  rw [if_neg (by simp [List.isEmpty_iff, he])]
  have hdrop : (ext ++ ';' :: ("base64,".data ++ data ++ ['>'])).drop ext.length
      = ';' :: ("base64,".data ++ data ++ ['>']) := by
    have h := List.drop_left ext (';' :: ("base64,".data ++ data ++ ['>']))
    simp only [List.append_assoc] at h ⊢
    exact h
  rw [hdrop]
  have hpre : (";base64,".data).isPrefixOf
      (';' :: ("base64,".data ++ data ++ ['>'])) = true := by
    have h : ';' :: ("base64,".data ++ data ++ ['>'])
        = ";base64,".data ++ (data ++ ['>']) := by simp
    rw [h]
    exact isPrefixOf_self_append _ _
  rw [if_pos hpre]
  have hdrop8 : (';' :: ("base64,".data ++ data ++ ['>'])).drop 8 = data ++ ['>'] := by
    simp
  rw [hdrop8, splitLastGT_construct data]

theorem matchDatablockAux_construct (nm tail : List Char) (acc : List Char)
    (ext data : List Char) (hn : ']' ∉ nm)
    (hch : dbChainExtract tail = some (ext, data)) :
    matchDatablockAux acc (nm ++ dbSep ++ tail) = some (acc.reverse ++ nm, ext, data) := by
  induction nm generalizing acc with
  | nil =>
    have hpre : dbSep.isPrefixOf (dbSep ++ tail) = true := isPrefixOf_self_append _ _
    have hdrop : (dbSep ++ tail).drop dbSep.length = tail := List.drop_left _ _
    have e : ']' :: (": <data:image/".data ++ tail) = dbSep ++ tail := rfl
    simp only [List.nil_append]
    show matchDatablockAux acc ((']' :: ": <data:image/".data) ++ tail) = _
    rw [List.cons_append, matchDatablockAux, e, if_pos hpre, hdrop, hch]
    simp
  | cons c nm' ih =>
    have hc : c ≠ ']' := fun hc => hn (hc ▸ List.mem_cons_self c nm')
    have hnotpre : dbSep.isPrefixOf (c :: (nm' ++ dbSep ++ tail)) = false := by
      show ((']' :: ": <data:image/".data).isPrefixOf (c :: (nm' ++ dbSep ++ tail))) = false
      simp only [List.isPrefixOf, Bool.and_eq_false_iff, beq_eq_false_iff_ne, ne_eq]
      left
      exact fun h => hc h.symm
    have harr : (c :: nm') ++ dbSep ++ tail = c :: (nm' ++ dbSep ++ tail) := by simp
    rw [harr, matchDatablockAux, hnotpre]
    simp only [Bool.false_eq_true, if_false]
    rw [ih (c :: acc) (fun hm => hn (List.mem_cons_of_mem c hm))]
    simp

theorem matchDatablock_construct (name ext dataStr : String)
    (hn : ']' ∉ name.data) (he : ext.data ≠ [])
    (hw : ∀ c ∈ ext.data, isWordChar c = true) :
    matchDatablock ("[" ++ name ++ "]: <data:image/" ++ ext ++ ";base64," ++ dataStr ++ ">")
      = some (name, ext, dataStr) := by
  have hch : dbChainExtract (ext.data ++ ";base64,".data ++ dataStr.data ++ ['>'])
      = some (ext.data, dataStr.data) := dbChainExtract_construct _ _ he hw
  have hdata : ("[" ++ name ++ "]: <data:image/" ++ ext ++ ";base64," ++ dataStr ++ ">").data
      = '[' :: (name.data ++ dbSep ++ (ext.data ++ ";base64,".data ++ dataStr.data ++ ['>'])) := by
    simp only [String.data_append, dbSep]
    simp [String.data_append]
  rw [matchDatablock, hdata]
  dsimp only
  rw [if_pos rfl]
  rw [matchDatablockAux_construct name.data _ [] ext.data dataStr.data hn hch]
  simp

theorem matchDatablock_head (l : String) (g : String × String × String)
    (h : matchDatablock l = some g) : ∃ rest, l.data = '[' :: rest := by
  unfold matchDatablock at h
  split at h
  · next c rest heq =>
    by_cases hc : c = '['
    · exact ⟨rest, by rw [heq, hc]⟩
    · rw [if_neg hc] at h
      exact absurd h (by simp)
  · exact absurd h (by simp)

theorem title_match_of_datablock (l : String) (g : String × String × String)
    (h : matchDatablock l = some g) : title_match l = false := by
  obtain ⟨rest, hld⟩ := matchDatablock_head l g h
  rw [title_match, hld]
  simp [List.takeWhile]

/-!
## Structural lemmas about the legacy line scanner -/

theorem oldStep_datablock (fid od : String) (st : OldState) (l : String)
    (g : String × String × String) (h : matchDatablock l = some g) :
    oldStep fid od st l =
      match pyB64decode g.2.2.data with
      | none => .error .base64Error
      | some bytes => .ok ⟨st.questions, st.current,
          (pyJoin2 (pyJoin2 od "media") (g.1 ++ "-" ++ fid ++ "." ++ g.2.1), bytes) :: st.fs⟩ := by
  rw [oldStep, h]
  cases hdec : pyB64decode g.2.2.data <;>
    simp [write_markdown_datablocks_to_file, hdec]

theorem oldStep_boundary (fid od : String) (st : OldState) (l : String)
    (hdb : matchDatablock l = none) (ht : title_match l = true) :
    oldStep fid od st l = .ok
      ⟨if st.current.title.isSome then st.questions ++ [st.current] else st.questions,
       ⟨some (String.mk (pyStrip (unescape_brackets l).data)), some []⟩, st.fs⟩ := by
  rw [oldStep, hdb]
  simp only [ht, if_true]

theorem oldStep_plain (fid od : String) (st : OldState) (l : String)
    (hdb : matchDatablock l = none) (ht : title_match l = false) :
    oldStep fid od st l =
      if st.current.title.isSome then .error .typeError else .ok st := by
  rw [oldStep, hdb]
  simp only [ht, Bool.false_eq_true, if_false]

theorem oldRun_append (fid od : String) (ls1 ls2 : List String) (st : OldState) :
    oldRun fid od (ls1 ++ ls2) st =
      match oldRun fid od ls1 st with
      | .error e => .error e
      | .ok st1 => oldRun fid od ls2 st1 := by
  induction ls1 generalizing st with
  | nil => simp [oldRun]
  | cons l ls ih =>
    rw [List.cons_append, oldRun, oldRun]
    cases oldStep fid od st l with
    | error e => rfl
    | ok st' => exact ih st'

theorem oldRun_count (fid od : String) (ls : List String) (st st' : OldState)
    (h : oldRun fid od ls st = .ok st') :
    st'.questions.length + titleFlag st'
      = st.questions.length + titleFlag st + ls.countP (fun l => title_match l) := by
  induction ls generalizing st with
  | nil =>
    rw [oldRun] at h
    cases h
    simp
  | cons l ls ih =>
    rw [oldRun] at h
    rw [List.countP_cons]
    cases hs : oldStep fid od st l with
    | error e => rw [hs] at h; exact absurd h (by simp)
    | ok st1 =>
      rw [hs] at h
      have hrec := ih st1 h
      cases hdb : matchDatablock l with
      | some g =>
        have hnt : title_match l = false := title_match_of_datablock l g hdb
        rw [oldStep_datablock fid od st l g hdb] at hs
        cases hdec : pyB64decode g.2.2.data with
        | none => rw [hdec] at hs; exact absurd hs (by simp)
        | some bytes =>
          rw [hdec] at hs
          cases hs
          simp only [titleFlag, hnt] at hrec ⊢
          simp at hrec ⊢
          omega
      | none =>
        by_cases ht : title_match l = true
        · rw [oldStep_boundary fid od st l hdb ht] at hs
          cases hs
          cases hcur : st.current.title.isSome
          · simp [titleFlag, hcur, ht] at hrec ⊢
            omega
          · simp [titleFlag, hcur, ht] at hrec ⊢
            omega
        · have ht' : title_match l = false := by
            cases hb : title_match l
            · rfl
            · exact absurd hb ht
          rw [oldStep_plain fid od st l hdb ht'] at hs
          cases hcur : st.current.title.isSome
          · rw [hcur] at hs
            simp only [Bool.false_eq_true, if_false] at hs
            cases hs
            simp [titleFlag, hcur, ht'] at hrec ⊢
            omega
          · rw [hcur] at hs
            simp only [if_true] at hs
            exact absurd hs (by simp)

theorem oldRun_titles (fid od : String) (ls : List String) (st st' : OldState)
    (h : oldRun fid od ls st = .ok st')
    (hinv : ∀ q ∈ st.questions, q.title.isSome) :
    ∀ q ∈ st'.questions, q.title.isSome := by
  induction ls generalizing st with
  | nil =>
    rw [oldRun] at h
    cases h
    exact hinv
  | cons l ls ih =>
    rw [oldRun] at h
    cases hs : oldStep fid od st l with
    | error e => rw [hs] at h; exact absurd h (by simp)
    | ok st1 =>
      rw [hs] at h
      refine ih st1 h ?_
      cases hdb : matchDatablock l with
      | some g =>
        rw [oldStep_datablock fid od st l g hdb] at hs
        cases hdec : pyB64decode g.2.2.data with
        | none => rw [hdec] at hs; exact absurd hs (by simp)
        | some bytes =>
          rw [hdec] at hs
          cases hs
          exact hinv
      | none =>
        by_cases ht : title_match l = true
        · rw [oldStep_boundary fid od st l hdb ht] at hs
          cases hs
          cases hcur : st.current.title.isSome
          · simpa [hcur] using hinv
          · intro q hq
            simp only [hcur, if_true] at hq
            rcases List.mem_append.mp hq with hq | hq
            · exact hinv q hq
            · rcases List.mem_singleton.mp hq with rfl
              exact hcur
        · have ht' : title_match l = false := by
            cases hb : title_match l
            · rfl
            · exact absurd hb ht
          rw [oldStep_plain fid od st l hdb ht'] at hs
          cases hcur : st.current.title.isSome
          · rw [hcur] at hs
            simp only [Bool.false_eq_true, if_false] at hs
            cases hs
            exact hinv
          · rw [hcur] at hs
            simp only [if_true] at hs
            exact absurd hs (by simp)

theorem oldRun_extend (fid od : String) (ls : List String) (st st' : OldState)
    (h : oldRun fid od ls st = .ok st') :
    ∃ t, st'.questions = st.questions ++ t := by
  induction ls generalizing st with
  | nil =>
    rw [oldRun] at h
    cases h
    exact ⟨[], by simp⟩
  | cons l ls ih =>
    rw [oldRun] at h
    cases hs : oldStep fid od st l with
    | error e => rw [hs] at h; exact absurd h (by simp)
    | ok st1 =>
      rw [hs] at h
      obtain ⟨t, hrec⟩ := ih st1 h
      cases hdb : matchDatablock l with
      | some g =>
        rw [oldStep_datablock fid od st l g hdb] at hs
        cases hdec : pyB64decode g.2.2.data with
        | none => rw [hdec] at hs; exact absurd hs (by simp)
        | some bytes =>
          rw [hdec] at hs
          cases hs
          exact ⟨t, hrec⟩
      | none =>
        by_cases ht : title_match l = true
        · rw [oldStep_boundary fid od st l hdb ht] at hs
          cases hs
          cases hcur : st.current.title.isSome
          · rw [hcur] at hrec
            simp only [Bool.false_eq_true, if_false] at hrec
            exact ⟨t, hrec⟩
          · rw [hcur] at hrec
            simp only [if_true] at hrec
            exact ⟨st.current :: t, by simp [hrec]⟩
        · have ht' : title_match l = false := by
            cases hb : title_match l
            · rfl
            · exact absurd hb ht
          rw [oldStep_plain fid od st l hdb ht'] at hs
          cases hcur : st.current.title.isSome
          · rw [hcur] at hs
            simp only [Bool.false_eq_true, if_false] at hs
            cases hs
            exact ⟨t, hrec⟩
          · rw [hcur] at hs
            simp only [if_true] at hs
            exact absurd hs (by simp)

theorem oldRun_fs_indep (fid od : String) (ls : List String) (qs : List QOld)
    (cur : QOld) (fs1 fs2 : MediaFS) :
    (oldRun fid od ls ⟨qs, cur, fs1⟩).map projQC
      = (oldRun fid od ls ⟨qs, cur, fs2⟩).map projQC := by
  induction ls generalizing qs cur fs1 fs2 with
  | nil => rw [oldRun, oldRun]; rfl
  | cons l ls ih =>
    rw [oldRun, oldRun]
    cases hdb : matchDatablock l with
    | some g =>
      rw [oldStep_datablock fid od ⟨qs, cur, fs1⟩ l g hdb,
        oldStep_datablock fid od ⟨qs, cur, fs2⟩ l g hdb]
      cases hdec : pyB64decode g.2.2.data with
      | none => rfl
      | some bytes => exact ih qs cur _ _
    | none =>
      by_cases ht : title_match l = true
      · rw [oldStep_boundary fid od ⟨qs, cur, fs1⟩ l hdb ht,
          oldStep_boundary fid od ⟨qs, cur, fs2⟩ l hdb ht]
        exact ih _ _ _ _
      · have ht' : title_match l = false := by
          cases hb : title_match l
          · rfl
          · exact absurd hb ht
        rw [oldStep_plain fid od ⟨qs, cur, fs1⟩ l hdb ht',
          oldStep_plain fid od ⟨qs, cur, fs2⟩ l hdb ht']
        cases hcur : cur.title.isSome
        · simp only [Bool.false_eq_true, if_false]
          exact ih qs cur _ _
        · simp only [if_true]

/-!
## Lemmas about the pattern-based parser and the assembler -/

theorem reFold_eq (cat : String) (ms : List (String × String × String))
    (acc : List QRe) (cur : QRe) (hcat : cur.category = some cat) :
    (ms.foldl reStep (acc, cur)).1 = acc ++ ms.map (reRecord cat) := by
  induction ms generalizing acc cur with
  | nil => simp
  | cons m ms ih =>
    rw [List.foldl_cons]
    have hstep : reStep (acc, cur) m = (acc ++ [reRecord cat m], reRecord cat m) := by
      simp [reStep, reRecord, hcat]
    rw [hstep, ih (acc ++ [reRecord cat m]) (reRecord cat m) rfl]
    simp

theorem reLoop_eq (cat : String) (ms : List (String × String × String)) :
    reLoop cat ms = ms.map (reRecord cat) := by
  rw [reLoop, reFold_eq cat ms [] _ rfl]
  simp

theorem pySplitDash_ne_nil (l : List Char) : pySplitDash l ≠ [] := by
  cases l with
  | nil => simp [pySplitDash]
  | cons c rest =>
    rw [pySplitDash]
    by_cases hc : c = '-'
    · simp [hc]
    · rw [if_neg hc]
      cases h : pySplitDash rest <;> simp

theorem pySplitDash_length (l : List Char) :
    (pySplitDash l).length = l.count '-' + 1 := by
  induction l with
  | nil => simp [pySplitDash]
  | cons c rest ih =>
    rw [pySplitDash]
    by_cases hc : c = '-'
    · subst hc
      simp [ih]
    · cases h : pySplitDash rest with
      | nil => exact absurd h (pySplitDash_ne_nil rest)
      | cons hh tt =>
        rw [if_neg hc]
        dsimp only
        rw [h] at ih
        simp only [List.length_cons] at ih ⊢
        rw [List.count_cons_of_ne (fun hne => hc hne.symm)]
        omega

theorem ankiLines_ok (qs : List QRe) (body : String) (h : ankiLines qs = .ok body) :
    body = (qs.map ankiFieldLine).foldr (· ++ ·) "" := by
  induction qs generalizing body with
  | nil =>
    rw [ankiLines] at h
    cases h
    simp
  | cons q rest ih =>
    rw [ankiLines] at h
    cases hq : ankiRecordLine q with
    | error e => rw [hq] at h; exact absurd h (by simp)
    | ok l =>
      rw [hq] at h
      cases hr : ankiLines rest with
      | error e => rw [hr] at h; exact absurd h (by simp)
      | ok r =>
        rw [hr] at h
        cases h
        have hl : l = ankiFieldLine q := by
          rw [ankiRecordLine] at hq
          cases hcat : q.category with
          | none => rw [hcat] at hq; exact absurd hq (by simp)
          | some cat =>
            rw [hcat] at hq
            cases hans : q.answer with
            | none => rw [hans] at hq; exact absurd hq (by simp)
            | some ans =>
              rw [hans] at hq
              cases htit : q.title with
              | none => rw [htit] at hq; exact absurd hq (by simp)
              | some t =>
                rw [htit] at hq
                cases hbod : q.body with
                | none => rw [hbod] at hq; exact absurd hq (by simp)
                | some b =>
                  rw [hbod] at hq
                  cases hq
                  simp [ankiFieldLine, hcat, hans, htit, hbod]
        rw [hl, ih r hr]
        simp

theorem titleFlag_le_one (st : OldState) : titleFlag st ≤ 1 := by
  rw [titleFlag]; split <;> omega

theorem oldRun_flag (fid od : String) (ls : List String) (st st' : OldState)
    (h : oldRun fid od ls st = .ok st') :
    titleFlag st ≤ titleFlag st'
    ∧ (0 < ls.countP (fun l => title_match l) → titleFlag st' = 1) := by
  induction ls generalizing st with
  | nil =>
    rw [oldRun] at h
    cases h
    exact ⟨le_refl _, by simp⟩
  | cons l ls ih =>
    rw [oldRun] at h
    rw [List.countP_cons]
    cases hs : oldStep fid od st l with
    | error e => rw [hs] at h; exact absurd h (by simp)
    | ok st1 =>
      rw [hs] at h
      have hrec := ih st1 h
      cases hdb : matchDatablock l with
      | some g =>
        have hnt : title_match l = false := title_match_of_datablock l g hdb
        rw [oldStep_datablock fid od st l g hdb] at hs
        cases hdec : pyB64decode g.2.2.data with
        | none => rw [hdec] at hs; exact absurd hs (by simp)
        | some bytes =>
          rw [hdec] at hs
          cases hs
          refine ⟨?_, ?_⟩
          · have : titleFlag st = titleFlag (⟨st.questions, st.current, _⟩ : OldState) := rfl
            exact this ▸ hrec.1
          · intro hpos
            simp only [hnt, Bool.false_eq_true, decide_False] at hpos ⊢
            simp only [if_false, Nat.add_zero] at hpos
            exact hrec.2 hpos
      | none =>
        by_cases ht : title_match l = true
        · rw [oldStep_boundary fid od st l hdb ht] at hs
          cases hs
          have h2 := hrec.1
          rw [show titleFlag ⟨if st.current.title.isSome = true then
              st.questions ++ [st.current] else st.questions,
              ⟨some (String.mk (pyStrip (unescape_brackets l).data)), some []⟩, st.fs⟩
              = 1 by simp [titleFlag]] at h2
          have h3 := titleFlag_le_one st
          have h4 := titleFlag_le_one st'
          exact ⟨by omega, fun _ => by omega⟩
        · have ht' : title_match l = false := by
            cases hb : title_match l
            · rfl
            · exact absurd hb ht
          rw [oldStep_plain fid od st l hdb ht'] at hs
          cases hcur : st.current.title.isSome
          · rw [hcur] at hs
            simp only [Bool.false_eq_true, if_false] at hs
            cases hs
            refine ⟨hrec.1, fun hpos => ?_⟩
            simp only [ht', Bool.false_eq_true, decide_False, if_false,
              Nat.add_zero] at hpos
            exact hrec.2 hpos
          · rw [hcur] at hs
            simp only [if_true] at hs
            exact absurd hs (by simp)

/-- Unpack a successful legacy parse into its final scanner state. -/
theorem parse_old_ok (lines : List String) (fid od : String) (fs : MediaFS)
    (qs : List QOld) (fs' : MediaFS)
    (h : parse_markdown_old_school lines fid od fs = .ok (qs, fs')) :
    ∃ st', oldRun fid od lines ⟨[], ⟨none, none⟩, fs⟩ = .ok st'
      ∧ st'.questions = qs ∧ st'.fs = fs' := by
  rw [parse_markdown_old_school] at h
  cases hrun : oldRun fid od lines ⟨[], ⟨none, none⟩, fs⟩ with
  | error e => rw [hrun] at h; exact absurd h (by simp [Except.map])
  | ok st' =>
    rw [hrun] at h
    simp only [Except.map, Except.ok.injEq, Prod.mk.injEq] at h
    exact ⟨st', rfl, h.1, h.2⟩

theorem exmap_comp {α β γ : Type} (f : α → β) (g : β → γ) (x : Except PyErr α) :
    Except.map g (Except.map f x) = Except.map (fun a => g (f a)) x := by
  cases x <;> rfl

/-!
## The claims -/

/-- **C1.** For every document text, the pattern-based parser produces one
record per comment-delimited match, with `answer` the quote-escaped marker
text (group 1), `title` the bracket-unescaped span between the comment-start
and comment-end markers (group 2), `body` the quote-escaped trailing span
(group 3), and `category` the document's fixed category; and on the input
`[42]{.comment-start}Q: capital of France?[]{.comment-end}Paris is the
answer.` followed by end-of-text it produces exactly one record with
answer `42`, title `Q: capital of France?`, body `Paris is the answer.`. -/
theorem C1_pattern_based_records :
    (∀ (file content : String) (qs : List QRe) (cat : String),
      categoryOf file = some cat →
      parse_markdown_with_re file (some content) = .ok qs →
      qs = (question_findall (handle_image_reference content)).map (reRecord cat))
    ∧ parse_markdown_with_re "x-c.md"
        (some "[42]\x7b.comment-start\x7dQ: capital of France?[]\x7b.comment-end\x7dParis is the answer.")
      = .ok [{ category := some "c", answer := some "42",
               title := some "Q: capital of France?",
               body := some "Paris is the answer." }] := by
  constructor
  · intro file content qs cat hcat hok
    rw [parse_markdown_with_re, hcat] at hok
    simp only [Except.ok.injEq] at hok
    rw [← hok, reLoop_eq]
  · decide

/-- Witness for C1 at the scenario input. -/
theorem C1_witness :
    ([{ category := some "c", answer := some "42",
        title := some "Q: capital of France?",
        body := some "Paris is the answer." }] : List QRe)
      = (question_findall (handle_image_reference
          "[42]\x7b.comment-start\x7dQ: capital of France?[]\x7b.comment-end\x7dParis is the answer.")).map
          (reRecord "c") :=
  C1_pattern_based_records.1 "x-c.md"
    "[42]\x7b.comment-start\x7dQ: capital of France?[]\x7b.comment-end\x7dParis is the answer."
    _ "c" (by decide) (by decide)

/-- **C2 (code bug).** The spec says that a non-boundary, non-datablock line
while a record is in progress has image shorthand rewritten, quotes escaped,
and its stripped form appended to the record body, and that the four-line
scenario yields two records.  The code instead calls
`convert_markdown_image_tag(line, file_id)` with two arguments although the
function is defined with a single parameter (source lines 43 and 107), so
Python raises `TypeError` on the first such line and the scenario aborts with
no records at all. -/
theorem C2_legacy_body_line_type_error :
    parse_markdown_old_school
      ["12-\\[ct-algebra\\]", "Solve for x.", "34-\\[ct-geometry\\]", "Find the area."]
      "abc12345" "/tmp/anki" [] = .error .typeError := by
  decide

/-- **C3.** In the legacy line scanner, whenever the parse returns, the number
of returned records is one less than the number of title-boundary lines (the
in-progress final record is never finalized at end of input), and in
particular a document with zero title-boundary lines yields zero records. -/
theorem C3_legacy_final_record_lost (lines : List String) (fid od : String)
    (fs : MediaFS) (qs : List QOld) (fs' : MediaFS)
    (h : parse_markdown_old_school lines fid od fs = .ok (qs, fs')) :
    (lines.countP (fun l => title_match l) = 0 → qs = [])
    ∧ (0 < lines.countP (fun l => title_match l) →
        qs.length + 1 = lines.countP (fun l => title_match l)) := by
  obtain ⟨st', hrun, hq, _⟩ := parse_old_ok lines fid od fs qs fs' h
  have hcount := oldRun_count fid od lines _ st' hrun
  have hflag := oldRun_flag fid od lines _ st' hrun
  have hinit : titleFlag ⟨[], ⟨none, none⟩, fs⟩ = 0 := by simp [titleFlag]
  rw [hinit, hq] at hcount
  simp only [List.length_nil, Nat.zero_add] at hcount
  constructor
  · intro hzero
    rw [hzero] at hcount
    have : qs.length = 0 := by
      have := titleFlag_le_one st'
      omega
    exact List.length_eq_zero.mp this
  · intro hpos
    have h1 := hflag.2 hpos
    omega

/-- Witness for C3: a two-boundary document returns one record. -/
theorem C3_witness :
    ((["1-\\[ct-a\\]", "2-\\[ct-b\\]"] : List String).countP
        (fun l => title_match l) = 0 →
      ([({ title := some "1-[ct-a]", body := some [] } : QOld)]) = [])
    ∧ (0 < (["1-\\[ct-a\\]", "2-\\[ct-b\\]"] : List String).countP
        (fun l => title_match l) →
      ([({ title := some "1-[ct-a]", body := some [] } : QOld)]).length + 1
        = (["1-\\[ct-a\\]", "2-\\[ct-b\\]"] : List String).countP
            (fun l => title_match l)) :=
  C3_legacy_final_record_lost ["1-\\[ct-a\\]", "2-\\[ct-b\\]"] "f" "/tmp/anki" []
    [{ title := some "1-[ct-a]", body := some [] }] [] (by decide)

/-- **C4 (code bug).** The spec (and the function's own docstring) say the
legacy inline-tag rewriter turns `![][fig1]` with file id `abc12345` into
`<img src="fig1-abc12345.png">`.  The function's pattern only matches
`![](path){attrs}` and it takes no file-id parameter, so `![][fig1]` is left
unchanged. -/
theorem C4_image_shorthand_not_rewritten :
    convert_markdown_image_tag "![][fig1]" = "![][fig1]"
    ∧ convert_markdown_image_tag "![][fig1]" ≠ "<img src=\"fig1-abc12345.png\">" := by
  constructor
  · decide
  · decide

/-- **C5 (code bug).** The spec says a converter failure is caught and logged,
the document skipped, and processing continues.  The code catches and logs
the error but still returns the markdown path it never produced (first
conjunct: the function returns normally without writing a file), and the main
loop then parses that missing file: `FileNotFoundError` aborts the whole run,
so the remaining `.md` document — which parses fine on its own (third
conjunct) — is never processed (second conjunct). -/
theorem C5_converter_failure_aborts_run :
    convert_docx_to_markdown none "quiz-math.docx" "/tmp/anki" []
      = ("/tmp/anki/markdown/quiz-math.md", [])
    ∧ process_all [SrcFile.docx "quiz-math.docx" none,
        SrcFile.md "good-algebra.md" "[1]\x7b.comment-start\x7dT[]\x7b.comment-end\x7dB"]
        "/tmp/anki" [] = .error .fileNotFoundError
    ∧ process_all [SrcFile.md "good-algebra.md"
        "[1]\x7b.comment-start\x7dT[]\x7b.comment-end\x7dB"] "/tmp/anki" []
      = .ok ([{ category := some "algebra", answer := some "1",
                title := some "T", body := some "B" }], []) := by
  refine ⟨by decide, by decide, by decide⟩

/-- **C6.** The Record Assembler writes exactly the header line
`question;answer;tag` followed, for each record in order, by one line of three
double-quoted fields `"title<br>body";"answer";"category"` plus a blank-line
separator (the output string is the whole file content, written in `'w'` mode,
truncating any existing file); and a source body span containing
`She said "hello"` is serialized with the quotes doubled. -/
theorem C6_assembler_format :
    (∀ (qs : List QRe) (out : String), generate_anki_file qs = .ok out →
      out = "question;answer;tag\n" ++ (qs.map ankiFieldLine).foldr (· ++ ·) "")
    ∧ parse_markdown_with_re "x-c.md"
        (some "[1]\x7b.comment-start\x7dT[]\x7b.comment-end\x7dShe said \"hello\"")
      = .ok [{ category := some "c", answer := some "1", title := some "T",
               body := some "She said \"\"hello\"\"" }]
    ∧ generate_anki_file [{ category := some "c", answer := some "1",
                            title := some "T",
                            body := some "She said \"\"hello\"\"" }]
      = .ok "question;answer;tag\n\"T<br>She said \"\"hello\"\"\";\"1\";\"c\"\n\n" := by
  refine ⟨?_, by decide, by decide⟩
  intro qs out h
  rw [generate_anki_file] at h
  cases hb : ankiLines qs with
  | error e => rw [hb] at h; exact absurd h (by simp)
  | ok body =>
    rw [hb] at h
    simp only [Except.ok.injEq] at h
    rw [← h, ankiLines_ok qs body hb]

/-- Witness for C6 at the quote-doubling scenario record. -/
theorem C6_witness :
    "question;answer;tag\n\"T<br>She said \"\"hello\"\"\";\"1\";\"c\"\n\n"
      = "question;answer;tag\n"
        ++ (([{ category := some "c", answer := some "1", title := some "T",
                body := some "She said \"\"hello\"\"" }] : List QRe).map ankiFieldLine).foldr
            (· ++ ·) "" :=
  C6_assembler_format.1
    [{ category := some "c", answer := some "1", title := some "T",
       body := some "She said \"\"hello\"\"" }]
    "question;answer;tag\n\"T<br>She said \"\"hello\"\"\";\"1\";\"c\"\n\n" (by decide)

/-- **C7.** Every record appended to the output sequence has its title set
(both parser variants; the pattern-based records also carry answer, body and
the document category), and a finalized record is an independent snapshot:
extending the input (which further mutates the reused `current`) only appends
to the previously produced record list, never altering it. -/
theorem C7_record_snapshot_invariants :
    (∀ (lines : List String) (fid od : String) (fs : MediaFS) (qs : List QOld)
        (fs' : MediaFS),
      parse_markdown_old_school lines fid od fs = .ok (qs, fs') →
      ∀ q ∈ qs, q.title.isSome)
    ∧ (∀ (ls1 ls2 : List String) (fid od : String) (fs : MediaFS)
        (qs1 : List QOld) (fs1 : MediaFS) (qs : List QOld) (fs' : MediaFS),
      parse_markdown_old_school ls1 fid od fs = .ok (qs1, fs1) →
      parse_markdown_old_school (ls1 ++ ls2) fid od fs = .ok (qs, fs') →
      ∃ t, qs = qs1 ++ t)
    ∧ (∀ (cat : String) (ms : List (String × String × String)) (q : QRe),
      q ∈ reLoop cat ms →
      q.title.isSome ∧ q.answer.isSome ∧ q.body.isSome ∧ q.category = some cat)
    ∧ (∀ (cat : String) (ms1 ms2 : List (String × String × String)),
      ∃ t, reLoop cat (ms1 ++ ms2) = reLoop cat ms1 ++ t) := by
  refine ⟨?_, ?_, ?_, ?_⟩
  · intro lines fid od fs qs fs' h
    obtain ⟨st', hrun, hq, _⟩ := parse_old_ok lines fid od fs qs fs' h
    rw [← hq]
    exact oldRun_titles fid od lines _ st' hrun
      (by intro q hq'; exact absurd hq' (List.not_mem_nil q))
  · intro ls1 ls2 fid od fs qs1 fs1 qs fs' h1 h2
    obtain ⟨st1, hrun1, hq1, _⟩ := parse_old_ok ls1 fid od fs qs1 fs1 h1
    obtain ⟨st', hrun2, hq2, _⟩ := parse_old_ok (ls1 ++ ls2) fid od fs qs fs' h2
    rw [oldRun_append fid od ls1 ls2 ⟨[], ⟨none, none⟩, fs⟩, hrun1] at hrun2
    obtain ⟨t, ht⟩ := oldRun_extend fid od ls2 st1 st' hrun2
    exact ⟨t, by rw [← hq2, ht, hq1]⟩
  · intro cat ms q hq
    rw [reLoop_eq] at hq
    obtain ⟨m, _, rfl⟩ := List.mem_map.mp hq
    exact ⟨rfl, rfl, rfl, rfl⟩
  · intro cat ms1 ms2
    exact ⟨ms2.map (reRecord cat), by rw [reLoop_eq, reLoop_eq, List.map_append]⟩

/-- Witness for C7: the two-boundary document's single record has its title set. -/
theorem C7_witness :
    ∀ q ∈ ([({ title := some "1-[ct-a]", body := some [] } : QOld)] : List QOld),
      q.title.isSome :=
  C7_record_snapshot_invariants.1 ["1-\\[ct-a\\]", "2-\\[ct-b\\]"] "f" "/tmp/anki" []
    [{ title := some "1-[ct-a]", body := some [] }] [] (by decide)

/-- **C8.** Round trip for datablocks: for every byte sequence, base64-encoding
it, embedding it in a line `[<name>]: <data:image/<ext>;base64,<data>>` and
running the legacy scanner writes `media/<name>-<fileId>.<ext>` with exactly
the original bytes; and the datablock line contributes no text to any record:
inserting it anywhere in a document leaves the produced record sequence (and
any error outcome) unchanged. -/
theorem C8_datablock_roundtrip (bytes : List Nat) (name ext fid od : String)
    (ls1 ls2 : List String) (fs : MediaFS)
    (hb : ∀ b ∈ bytes, b < 256) (hn : ']' ∉ name.data)
    (he : ext.data ≠ []) (hw : ∀ c ∈ ext.data, isWordChar c = true) :
    parse_markdown_old_school
        ["[" ++ name ++ "]: <data:image/" ++ ext ++ ";base64,"
          ++ String.mk (b64encode bytes) ++ ">"] fid od fs
      = .ok ([], (pyJoin2 (pyJoin2 od "media") (name ++ "-" ++ fid ++ "." ++ ext),
          bytes) :: fs)
    ∧ (parse_markdown_old_school
          (ls1 ++ ("[" ++ name ++ "]: <data:image/" ++ ext ++ ";base64,"
            ++ String.mk (b64encode bytes) ++ ">") :: ls2) fid od fs).map Prod.fst
      = (parse_markdown_old_school (ls1 ++ ls2) fid od fs).map Prod.fst := by
  have hmdb := matchDatablock_construct name ext (String.mk (b64encode bytes)) hn he hw
  have hdec : pyB64decode (String.mk (b64encode bytes)).data = some bytes :=
    pyB64decode_encode bytes hb
  have hstep : ∀ st : OldState,
      oldStep fid od st ("[" ++ name ++ "]: <data:image/" ++ ext ++ ";base64,"
        ++ String.mk (b64encode bytes) ++ ">")
      = .ok ⟨st.questions, st.current,
          (pyJoin2 (pyJoin2 od "media") (name ++ "-" ++ fid ++ "." ++ ext),
            bytes) :: st.fs⟩ := by
    intro st
    rw [oldStep_datablock fid od st _ (name, ext, String.mk (b64encode bytes)) hmdb]
    dsimp only
    rw [hdec]
  constructor
  · rw [parse_markdown_old_school, oldRun, hstep]
    dsimp only
    rw [oldRun]
    rfl
  · rw [parse_markdown_old_school, parse_markdown_old_school]
    rw [exmap_comp, exmap_comp]
    rw [oldRun_append, oldRun_append]
    cases hrun : oldRun fid od ls1 ⟨[], ⟨none, none⟩, fs⟩ with
    | error e => rfl
    | ok st1 =>
      dsimp only
      rw [oldRun, hstep st1]
      dsimp only
      obtain ⟨q1, c1, f1⟩ := st1
      have h := oldRun_fs_indep fid od ls2 q1 c1
        ((pyJoin2 (pyJoin2 od "media") (name ++ "-" ++ fid ++ "." ++ ext), bytes) :: f1) f1
      have h2 := congrArg (Except.map Prod.fst) h
      rw [exmap_comp, exmap_comp] at h2
      exact h2

/-- Witness for C8 with the bytes of `"Man"`, name `fig1`, extension `png`. -/
theorem C8_witness :
    parse_markdown_old_school
        ["[" ++ "fig1" ++ "]: <data:image/" ++ "png" ++ ";base64,"
          ++ String.mk (b64encode [77, 97, 110]) ++ ">"] "abc12345" "/tmp/anki" []
      = .ok ([], (pyJoin2 (pyJoin2 "/tmp/anki" "media")
          ("fig1" ++ "-" ++ "abc12345" ++ "." ++ "png"), [77, 97, 110]) :: [])
    ∧ (parse_markdown_old_school
          (["plain text"] ++ ("[" ++ "fig1" ++ "]: <data:image/" ++ "png" ++ ";base64,"
            ++ String.mk (b64encode [77, 97, 110]) ++ ">") :: []) "abc12345" "/tmp/anki" []).map
          Prod.fst
      = (parse_markdown_old_school (["plain text"] ++ []) "abc12345" "/tmp/anki" []).map
          Prod.fst :=
  C8_datablock_roundtrip [77, 97, 110] "fig1" "png" "abc12345" "/tmp/anki"
    ["plain text"] [] [] (by decide) (by decide) (by decide) (by decide)

theorem categoryOf_eq_none (f : String)
    (h : '-' ∉ (pyReplace ".md" "" (pyBasename f)).data) : categoryOf f = none := by
  have hcount : List.count '-' (pyReplace ".md" "" (pyBasename f)).data = 0 :=
    List.count_eq_zero.mpr h
  have hlen := pySplitDash_length (pyReplace ".md" "" (pyBasename f)).data
  have hg : (pySplitDash (pyReplace ".md" "" (pyBasename f)).data).get? 1 = none :=
    List.get?_eq_none.mpr (by omega)
  rw [categoryOf, hg]

/-- **C10.** The pattern-based parser only succeeds when the input file's
basename (after `.md` removal) contains a hyphen: without one, category
derivation raises `IndexError` before any text is read (for every content,
including a missing file), and the whole run aborts with that error before
any remaining document is processed. -/
theorem C10_category_requires_hyphen (file : String) :
    ('-' ∉ (pyReplace ".md" "" (pyBasename file)).data →
      (∀ content : Option String,
        parse_markdown_with_re file content = .error .indexError)
      ∧ (∀ (rest : List SrcFile) (output_dir : String) (fs : TextFS)
          (content : String),
        process_all (SrcFile.md file content :: rest) output_dir fs
          = .error .indexError))
    ∧ (∀ (content : Option String) (qs : List QRe),
        parse_markdown_with_re file content = .ok qs →
        '-' ∈ (pyReplace ".md" "" (pyBasename file)).data) := by
  constructor
  · intro h
    have hcat := categoryOf_eq_none file h
    have hparse : ∀ content : Option String,
        parse_markdown_with_re file content = .error .indexError := by
      intro content
      rw [parse_markdown_with_re, hcat]
    refine ⟨hparse, ?_⟩
    intro rest od fs content
    rw [process_all, hparse (some content)]
  · intro content qs h
    by_contra hmem
    rw [parse_markdown_with_re, categoryOf_eq_none file hmem] at h
    exact absurd h (by simp)

/-- Witness for C10: a hyphen-less basename aborts; a hyphenated one parses. -/
theorem C10_witness :
    parse_markdown_with_re "nohyphen.md" (some "anything") = .error .indexError
    ∧ '-' ∈ (pyReplace ".md" "" (pyBasename "dir/quiz-math.md")).data :=
  ⟨((C10_category_requires_hyphen "nohyphen.md").1 (by decide)).1 (some "anything"),
   (C10_category_requires_hyphen "dir/quiz-math.md").2 (some "plain") [] (by decide)⟩
